import Mathlib

set_option autoImplicit false

/-!
Shallow embedding of the ts-collections-kit core:
the entity change tracker of src/src/entities/base-entity.ts and the
collection snapshot/transaction engine of src/src/collections/base-collection.ts
(the first, current BaseCollection class in that file; the claims cite its lines).

Field values are modelled as JS primitives; JS numbers are modelled as Int, so
Object.is coincides with decidable equality (the NaN and negative-zero cases do
not arise).  deepClone (src/src/utils/clone.ts, lodash cloneDeep) returns a
structurally equal value; the fresh object identity a clone produces is not
observable in this value semantics, so on the modelled values it is the
identity.  Entities are identified by a numeric id into an explicit heap, so
reference identity of entity instances is the equality of ids.
-/

namespace TsKit

/-- A JS primitive value as stored in a tracked entity field. -/
inductive Val where
  | undef
  | vnull
  | vbool (b : Bool)
  | vint (n : Int)
  | vstr (s : String)
  deriving DecidableEq, Repr

/-- Model of utils/clone.ts deepClone (lodash cloneDeep): on the modelled
primitive values a deep clone is an equal value. -/
def deepClone (v : Val) : Val := v

/-- Object.is on the modelled values: strict identity. -/
def objectIs (a b : Val) : Bool := decide (a = b)

/-- Own enumerable fields of an entity, in insertion order (JS object keys). -/
abbrev Fields := List (String × Val)

/-- First-match lookup of an own field. -/
def lookupField : Fields → String → Option Val
  | [], _ => none
  | (k2, v) :: rest, k => if k2 = k then some v else lookupField rest k

/-- Reflect.get: reading an absent own field yields undefined. -/
def getField (fs : Fields) (k : String) : Val :=
  (lookupField fs k).getD Val.undef

/-- Whether a key is an own property. -/
def hasOwnField (fs : Fields) (k : String) : Bool :=
  (lookupField fs k).isSome

/-- Reflect.set on a plain object: update an existing key in place, else append
(JS insertion order). -/
def setField : Fields → String → Val → Fields
  | [], k, v => [(k, v)]
  | (k2, v2) :: rest, k, v =>
      if k2 = k then (k2, v) :: rest else (k2, v2) :: setField rest k v

/-- JS objects never hold duplicate keys. -/
def nodupKeys (fs : Fields) : Prop := (fs.map Prod.fst).Nodup

instance (fs : Fields) : Decidable (nodupKeys fs) := by
  unfold nodupKeys; infer_instance

/-- base-entity.ts isInternalSnapshotKey: internal subsystem fields. -/
def isInternalSnapshotKey (k : String) : Bool :=
  k = "eventSubject" || k = "propertyChangeSubject" || k = "trackingSuspended"

/-- The reserved-key convention of the set trap and the snapshot code:
property[0] is the underscore character. -/
def isUnderscoreKey (k : String) : Bool :=
  match k.data with
  | [] => false
  | c :: _ => c = '_'

/-- Keys excluded from snapshot capture and restore (reserved or internal). -/
def snapshotKeyExcluded (k : String) : Bool :=
  isUnderscoreKey k || isInternalSnapshotKey k

/-- Entity lifecycle event names (observers/observable.interface.ts). -/
inductive EntityEvent where
  | creating | created | updating | updated
  | deleting | deleted | restoring | restored
  deriving DecidableEq, Repr

/-- IPropertyEventPayload. -/
structure PropPayload where
  property : String
  oldValue : Val
  newValue : Val
  deriving DecidableEq, Repr

/-- One emission of an entity, in chronological order, tagged with the stream
it goes out on: the lifecycle stream (eventSubject) or the property stream
(propertyChangeSubject). -/
inductive Emission where
  | lifecycle (ev : EntityEvent) (payload : Option PropPayload)
  | propertyChange (ev : EntityEvent) (payload : PropPayload)
  deriving DecidableEq, Repr

/-- The observable state of one BaseEntity: its own tracked fields and the
internal trackingSuspended flag.  The two subjects carry no state that the
claims observe beyond the emissions themselves; internal subsystem slots
(eventSubject, propertyChangeSubject, trackingSuspended) are modelled apart
from the field map. -/
structure EntityState where
  fields : Fields
  trackingSuspended : Bool
  deriving DecidableEq, Repr

/-- The Proxy set trap of base-entity.ts (lines 119-166).  Returns the state
after the write together with the emissions, in chronological order.
Branches mirror the source: internal subsystem keys bypass tracking; during a
restore (trackingSuspended) writes are applied silently; a tracked string key
whose first character is not an underscore emits Updating on the lifecycle
stream, performs the write, emits Updated on the property stream, then Updated
on the lifecycle stream - but only when Object.is finds the value changed;
reserved keys get a regular write. -/
def setTrap (e : EntityState) (k : String) (v : Val) : EntityState × List Emission :=
  if isInternalSnapshotKey k then
    ({ e with fields := setField e.fields k v }, [])
  else if e.trackingSuspended then
    ({ e with fields := setField e.fields k v }, [])
  else if isUnderscoreKey k = false then
    let oldValue := getField e.fields k
    if objectIs oldValue v = false then
      let p : PropPayload := ⟨k, oldValue, v⟩
      ({ e with fields := setField e.fields k v },
        [Emission.lifecycle EntityEvent.updating (some p),
         Emission.propertyChange EntityEvent.updated p,
         Emission.lifecycle EntityEvent.updated (some p)])
    else
      (e, [])
  else
    ({ e with fields := setField e.fields k v }, [])

/-- base-entity.ts captureSnapshot: own enumerable fields, skipping reserved
and internal keys, values deep-cloned.  Function-valued fields, which the
source also skips, are not representable among the modelled primitive
values. -/
def captureSnapshot (e : EntityState) : Fields :=
  (e.fields.filter (fun kv => !(snapshotKeyExcluded kv.1))).map
    (fun kv => (kv.1, deepClone kv.2))

/-- The key list of a snapshot. -/
def snapKeys (snap : Fields) : List String := snap.map Prod.fst

/-- One write-back step of restoreSnapshot: snapshot keys that are reserved or
internal are skipped, the rest are assigned through the proxy set trap (which
is suspended during a restore). -/
def restoreStep (acc : EntityState × List Emission) (kv : String × Val) :
    EntityState × List Emission :=
  if snapshotKeyExcluded kv.1 then acc
  else
    let r := setTrap acc.1 kv.1 (deepClone kv.2)
    (r.1, acc.2 ++ r.2)

/-- base-entity.ts restoreSnapshot (lines 223-253): set trackingSuspended,
delete own keys (reserved and internal keys are skipped) that are absent from
the snapshot - the proxy has no deleteProperty trap, so deletion is silent -
then write every snapshot value back through the proxy, finally clear
trackingSuspended.  All emissions produced along the way are returned. -/
def restoreSnapshot (e : EntityState) (snap : Fields) : EntityState × List Emission :=
  let e1 : EntityState := { e with trackingSuspended := true }
  let e2 : EntityState := { e1 with
    fields := e1.fields.filter (fun kv =>
      snapshotKeyExcluded kv.1 || (snapKeys snap).contains kv.1) }
  let r2 := snap.foldl restoreStep (e2, [])
  ({ r2.1 with trackingSuspended := false }, r2.2)

/-- The pure field effect of the write-back loop of restoreSnapshot. -/
def applySnapFields (fs : Fields) (snap : Fields) : Fields :=
  snap.foldl (fun acc kv =>
    if snapshotKeyExcluded kv.1 then acc
    else setField acc kv.1 (deepClone kv.2)) fs

/-- A collection item: a plain (non-observable) value, or a reference to a
BaseEntity identified by its heap id. -/
inductive Item where
  | plain (v : Val)
  | entity (id : Nat)
  deriving DecidableEq, Repr

/-- IItemSnapshot of base-collection.ts. -/
structure ItemSnap where
  item : Item
  snap : Fields
  deriving DecidableEq, Repr

/-- ICollectionSnapshot of base-collection.ts: token (Date.now value), the item
reference list, and per-item entity snapshots. -/
structure CollSnap where
  token : Nat
  items : List Item
  itemSnapshots : List ItemSnap
  deriving DecidableEq, Repr

/-- The heap of entity instances, keyed by id. -/
abbrev Heap := List (Nat × EntityState)

def lookupEnt : Heap → Nat → Option EntityState
  | [], _ => none
  | (i, e) :: rest, id => if i = id then some e else lookupEnt rest id

/-- Dereference an entity id (a fresh, empty, untracked entity for an unused
id). -/
def getEnt (h : Heap) (id : Nat) : EntityState :=
  (lookupEnt h id).getD ⟨[], false⟩

def setEnt : Heap → Nat → EntityState → Heap
  | [], id, e => [(id, e)]
  | (i, e2) :: rest, id, e =>
      if i = id then (i, e) :: rest else (i, e2) :: setEnt rest id e

/-- The state of one BaseCollection together with the entity heap.  subs is
the subscription registry: one occurrence of an entity id per
subscribeToItem call that found the item observable (each such call creates
one property-stream and one lifecycle-stream subscription). -/
structure Sys where
  items : List Item
  history : List CollSnap
  transactionActive : Bool
  transactionToken : Option Nat
  transactionInitialState : Option CollSnap
  enableSnapshots : Bool
  enableTransactions : Bool
  subs : List Nat
  heap : Heap
  deriving DecidableEq, Repr

/-- isObservableEntity duck check: BaseEntity items expose both observables;
plain values expose neither. -/
def isObservableItem : Item → Bool
  | Item.entity _ => true
  | Item.plain _ => false

/-- isSnapshotCapableItem duck check: BaseEntity items expose captureSnapshot
and restoreSnapshot; plain values do not. -/
def isSnapshotCapable : Item → Bool
  | Item.entity _ => true
  | Item.plain _ => false

/-- subscribeToItem: observable items get one more subscription pair appended
to the registry. -/
def subscribeToItem (subs : List Nat) (it : Item) : List Nat :=
  match it with
  | Item.entity id => subs ++ [id]
  | Item.plain _ => subs

/-- resubscribeToAllItems: drop every subscription, then subscribe to each
current item in order. -/
def resubscribeAll (items : List Item) : List Nat :=
  items.foldl subscribeToItem []

/-- The per-item entity snapshots taken by captureCollectionSnapshot. -/
def captureItemSnaps (h : Heap) (items : List Item) : List ItemSnap :=
  items.filterMap (fun it =>
    match it with
    | Item.entity id => some ⟨it, captureSnapshot (getEnt h id)⟩
    | Item.plain _ => none)

/-- captureCollectionSnapshot (base-collection.ts lines 231-242). -/
def captureCollectionSnapshot (t : Nat) (sys : Sys) : CollSnap :=
  { token := t
    items := sys.items
    itemSnapshots := captureItemSnaps sys.heap sys.items }

/-- The protected snapshot() method (lines 285-293): guarded by the option,
token from Date.now (the time parameter t). -/
def snapshotOp (t : Nat) (sys : Sys) : Sys :=
  if sys.enableSnapshots then
    { sys with history := sys.history ++ [captureCollectionSnapshot t sys] }
  else sys

/-- n sequential snapshot() calls (one per lifecycle subscription that reacts
to a single Updating emission, each observing the same Date.now value t). -/
def snapTimes (t : Nat) : Nat → Sys → Sys
  | 0, sys => sys
  | n + 1, sys => snapTimes t n (snapshotOp t sys)

/-- One event on the collection stream (observers/collection-events.ts):
add and remove with the item, commit with the state and the optional token,
rollback with the state, and entity property events forwarded with the item
and the change payload. -/
inductive CEvent where
  | addEv (it : Item)
  | removeEv (it : Item)
  | commitEv (state : List Item) (token : Option Nat)
  | rollbackEv (state : List Item)
  | forwardedEv (ev : EntityEvent) (it : Item) (change : PropPayload)
  deriving DecidableEq, Repr

/-- The synchronous reaction of the collection to one emission of the entity
with the given id: every lifecycle subscription to that entity runs
onLifecycleEvent (taking a snapshot on Updating, outside transactions, when
snapshots are enabled), and every property subscription forwards the property
event onto the collection stream. -/
def handleEm (t : Nat) (id : Nat) (acc : Sys × List CEvent) (em : Emission) :
    Sys × List CEvent :=
  let sys := acc.1
  let n := sys.subs.count id
  match em with
  | Emission.lifecycle EntityEvent.updating _ =>
      if !sys.transactionActive && sys.enableSnapshots then
        (snapTimes t n sys, acc.2)
      else (sys, acc.2)
  | Emission.lifecycle _ _ => acc
  | Emission.propertyChange ev p =>
      (sys, acc.2 ++ List.replicate n (CEvent.forwardedEv ev (Item.entity id) p))

def handleEms (t : Nat) (id : Nat) (acc : Sys × List CEvent)
    (ems : List Emission) : Sys × List CEvent :=
  ems.foldl (handleEm t id) acc

/-- Restore one captured item snapshot: snapshot-capable items run
restoreSnapshot; any emissions a restore were to produce would be handled by
the live subscriptions exactly like any other entity emission. -/
def restoreOne (t : Nat) (acc : Sys × List CEvent) (entry : ItemSnap) :
    Sys × List CEvent :=
  match entry.item with
  | Item.entity id =>
      let r := restoreSnapshot (getEnt acc.1.heap id) entry.snap
      let sys2 : Sys := { acc.1 with heap := setEnt acc.1.heap id r.1 }
      handleEms t id (sys2, acc.2) r.2
  | Item.plain _ => acc

/-- restoreItemSnapshots (lines 250-258). -/
def restoreAll (t : Nat) (sys : Sys) (snaps : List ItemSnap) : Sys × List CEvent :=
  snaps.foldl (restoreOne t) (sys, [])

/-- The pure heap effect of restoreItemSnapshots. -/
def restoreHeap (h : Heap) (snaps : List ItemSnap) : Heap :=
  snaps.foldl (fun hh entry =>
    match entry.item with
    | Item.entity id => setEnt hh id (restoreSnapshot (getEnt hh id) entry.snap).1
    | Item.plain _ => hh) h

/-- replaceItems (lines 266-269): swap the item array, then full
resubscription. -/
def replaceItems (sys : Sys) (nextItems : List Item) : Sys :=
  { sys with items := nextItems, subs := resubscribeAll nextItems }

/-- add (lines 399-407): pre-mutation snapshot outside transactions when
enabled, push, emit add, subscribe to the new item. -/
def addOp (t : Nat) (sys : Sys) (item : Item) : Sys × List CEvent :=
  let sys1 := if !sys.transactionActive && sys.enableSnapshots then snapshotOp t sys else sys
  let sys2 : Sys := { sys1 with items := sys1.items ++ [item] }
  let sys3 : Sys := { sys2 with subs := subscribeToItem sys2.subs item }
  (sys3, [CEvent.addEv item])

/-- remove (lines 417-431): pre-mutation snapshot outside transactions when
enabled, drop every reference-identical occurrence, replaceItems, emit remove
unconditionally. -/
def removeOp (t : Nat) (sys : Sys) (item : Item) : Sys × List CEvent :=
  let sys1 := if !sys.transactionActive && sys.enableSnapshots then snapshotOp t sys else sys
  let nextItems := sys1.items.filter (fun ci => ci != item)
  let sys2 := replaceItems sys1 nextItems
  (sys2, [CEvent.removeEv item])

/-- beginTransaction (lines 312-327).  The source throws when transactions are
disabled or one is active; a throw leaves the state unchanged, which is how
the failing cases are modelled.  The anchor is captured from the current items
and heap with token Date.now. -/
def beginTransactionOp (t : Nat) (sys : Sys) : Sys :=
  if !sys.enableTransactions then sys
  else if sys.transactionActive then sys
  else
    { sys with
      transactionActive := true
      transactionToken := some t
      transactionInitialState := some (captureCollectionSnapshot t sys) }

/-- commitTransaction (lines 335-361).  Failing guards (disabled, inactive, or
no token) throw, leaving the state unchanged.  The boundary history entry is
captured with the token of the transaction - Date.now is not consulted. -/
def commitTransactionOp (sys : Sys) : Sys × List CEvent :=
  if !sys.enableTransactions then (sys, [])
  else
    match sys.transactionToken with
    | none => (sys, [])
    | some token =>
        if !sys.transactionActive then (sys, [])
        else
          let sys1 := if sys.enableSnapshots then
              { sys with history := sys.history ++ [captureCollectionSnapshot token sys] }
            else sys
          let sys2 : Sys := { sys1 with
            transactionActive := false
            transactionToken := none
            transactionInitialState := none }
          (sys2, [CEvent.commitEv sys2.items (some token)])

/-- rollbackTransaction (lines 369-389): restore the anchor (items, then the
per-item entity snapshots), clear the transaction state, emit rollback. -/
def rollbackTransactionOp (t : Nat) (sys : Sys) : Sys × List CEvent :=
  if !sys.enableTransactions then (sys, [])
  else if !sys.transactionActive then (sys, [])
  else
    let r :=
      match sys.transactionInitialState with
      | some anchor => restoreAll t (replaceItems sys anchor.items) anchor.itemSnapshots
      | none => (sys, [])
    let sys2 : Sys := { r.1 with
      transactionActive := false
      transactionToken := none
      transactionInitialState := none }
    (sys2, r.2 ++ [CEvent.rollbackEv sys2.items])

/-- commit (lines 440-452): delegate to commitTransaction inside a
transaction, otherwise clear the history and emit commit without a token. -/
def commitOp (sys : Sys) : Sys × List CEvent :=
  if sys.transactionActive then commitTransactionOp sys
  else
    let sys1 : Sys := { sys with history := [] }
    (sys1, [CEvent.commitEv sys1.items none])

/-- rollback (lines 459-472): a true no-op on empty history, otherwise pop the
last snapshot, replaceItems, restore the per-item entity snapshots, emit
rollback with the resulting state. -/
def rollbackOp (t : Nat) (sys : Sys) : Sys × List CEvent :=
  match sys.history.getLast? with
  | none => (sys, [])
  | some lastSnapshot =>
      let sys1 : Sys := { sys with history := sys.history.dropLast }
      let sys2 := replaceItems sys1 lastSnapshot.items
      let r := restoreAll t sys2 lastSnapshot.itemSnapshots
      (r.1, r.2 ++ [CEvent.rollbackEv r.1.items])

/-- An external write e.k = v through the proxy of the entity with the given
id, with the synchronous collection handlers inlined at their positions in the
set trap: the Updating lifecycle emission runs every lifecycle subscription
(snapshot of the pre-write state), then the write lands on the heap, then the
Updated property emission is forwarded by every property subscription, and the
final Updated lifecycle emission is ignored by onLifecycleEvent. -/
def setFieldOp (t : Nat) (sys : Sys) (id : Nat) (k : String) (v : Val) :
    Sys × List CEvent :=
  let e := getEnt sys.heap id
  if isInternalSnapshotKey k then
    ({ sys with heap := setEnt sys.heap id { e with fields := setField e.fields k v } }, [])
  else if e.trackingSuspended then
    ({ sys with heap := setEnt sys.heap id { e with fields := setField e.fields k v } }, [])
  else if isUnderscoreKey k = false then
    let oldValue := getField e.fields k
    if objectIs oldValue v = false then
      let p : PropPayload := ⟨k, oldValue, v⟩
      let n := sys.subs.count id
      let sys1 := if !sys.transactionActive && sys.enableSnapshots then snapTimes t n sys else sys
      let sys2 : Sys := { sys1 with heap := setEnt sys1.heap id { e with fields := setField e.fields k v } }
      (sys2, List.replicate n (CEvent.forwardedEv EntityEvent.updated (Item.entity id) p))
    else (sys, [])
  else
    ({ sys with heap := setEnt sys.heap id { e with fields := setField e.fields k v } }, [])

/-- The operations a caller can perform on the system. -/
inductive Op where
  | add (it : Item)
  | remove (it : Item)
  | setF (id : Nat) (k : String) (v : Val)
  | beginTx
  | commitTx
  | rollbackTx
  | commit
  | rollback
  deriving DecidableEq, Repr

/-- One step at Date.now value t. -/
def step (sys : Sys) (t : Nat) : Op → Sys × List CEvent
  | Op.add it => addOp t sys it
  | Op.remove it => removeOp t sys it
  | Op.setF id k v => setFieldOp t sys id k v
  | Op.beginTx => (beginTransactionOp t sys, [])
  | Op.commitTx => commitTransactionOp sys
  | Op.rollbackTx => rollbackTransactionOp t sys
  | Op.commit => commitOp sys
  | Op.rollback => rollbackOp t sys

/-- Run a timed trace of operations. -/
def runTrace (sys : Sys) : List (Nat × Op) → Sys
  | [] => sys
  | (t, op) :: rest => runTrace (step sys t op).1 rest

/-- A quiescent BaseEntity: not inside a restore, and with JS-object field
keys (no duplicates). -/
def wfEnt (e : EntityState) : Prop :=
  e.trackingSuspended = false ∧ nodupKeys e.fields

instance (e : EntityState) : Decidable (wfEnt e) := by
  unfold wfEnt; infer_instance

/-- Structural mutation operations of a transaction body. -/
def isStructOp : Op → Bool
  | Op.add _ => true
  | Op.remove _ => true
  | _ => false

/-- The token sequence of the snapshot history. -/
def tokensOfHistory (sys : Sys) : List Nat := sys.history.map CollSnap.token

/-- The transaction-token part of the token invariant: an existing token is
bounded by the last observed Date.now value, and, while the transaction is
active, bounds every token already in the history. -/
def anchorBound : Option Nat → Bool → List Nat → Nat → Prop
  | some tk, active, toks, now =>
      tk ≤ now ∧ (active = true → ∀ tok ∈ toks, tok ≤ tk)
  | none, _, _, _ => True

instance (o : Option Nat) (active : Bool) (toks : List Nat) (now : Nat) :
    Decidable (anchorBound o active toks now) :=
  match o with
  | some tk =>
      inferInstanceAs (Decidable (tk ≤ now ∧ (active = true → ∀ tok ∈ toks, tok ≤ tk)))
  | none => isTrue trivial

/-- Token bookkeeping over an abstract token list, transaction token and
active flag, relative to the last observed Date.now value: the token list is
a non-decreasing chain bounded by now, and an anchored transaction token is
bounded by now and, while active, bounds every listed token. -/
def tokenInvOn (toks : List Nat) (o : Option Nat) (active : Bool) (now : Nat) : Prop :=
  List.Chain' (· ≤ ·) toks ∧
  (∀ tok ∈ toks, tok ≤ now) ∧
  anchorBound o active toks now

instance (toks : List Nat) (o : Option Nat) (active : Bool) (now : Nat) :
    Decidable (tokenInvOn toks o active now) := by
  unfold tokenInvOn; infer_instance

/-- Token bookkeeping invariant of a system relative to the last observed
Date.now value. -/
def TokenInv (sys : Sys) (now : Nat) : Prop :=
  tokenInvOn (tokensOfHistory sys) sys.transactionToken sys.transactionActive now

instance (sys : Sys) (now : Nat) : Decidable (TokenInv sys now) := by
  unfold TokenInv; infer_instance

/-- A collection with snapshots enabled into which the same entity is added
twice (the source subscribes once per add, never deduplicating). -/
def c2xSys0 : Sys :=
  ⟨[], [], false, none, none, true, false, [], [(0, ⟨[("foo", Val.vstr "x")], false⟩)]⟩

def c2xSysB : Sys :=
  (step (step c2xSys0 1 (Op.add (Item.entity 0))).1 2 (Op.add (Item.entity 0))).1

/-- Scenario D start state: a collection holding one entity with snapshots
enabled, subscribed once (as the constructor does for an initial item). -/
def c2dSys0 : Sys :=
  ⟨[Item.entity 0], [], false, none, none, true, false, [0],
    [(0, ⟨[("foo", Val.undef)], false⟩)]⟩

/-- Scenario D: set foo to a, then to b, then roll back. -/
def c2dRoll : Sys :=
  (step (step (step c2dSys0 1 (Op.setF 0 "foo" (Val.vstr "a"))).1 2
      (Op.setF 0 "foo" (Val.vstr "b"))).1 3 Op.rollback).1

/-- A collection with snapshots enabled, sitting inside an active transaction
(begun earlier at time 5, anchor captured then) with an empty snapshot
history. -/
def c4xSys0 : Sys :=
  ⟨[Item.plain (Val.vint 1)], [], true, some 5,
    some ⟨5, [Item.plain (Val.vint 1)], []⟩, true, true, [], []⟩

/-- A transaction on a collection with snapshots and transactions enabled:
begin at time 10, add inside the transaction at time 15, commit at time 20. -/
def c9Sys0 : Sys :=
  ⟨[Item.plain (Val.vint 1)], [], false, none, none, true, true, [], []⟩

def c9Sys1 : Sys := (step c9Sys0 10 Op.beginTx).1

def c9Sys3 : Sys :=
  (step (step c9Sys1 15 (Op.add (Item.plain (Val.vint 2)))).1 20 Op.commitTx).1

/-! ### Field map lemmas -/

theorem lookupField_setField (fs : Fields) (k : String) (v : Val) (k2 : String) :
    lookupField (setField fs k v) k2
      = if k = k2 then some v else lookupField fs k2 := by
  induction fs with
  | nil =>
      by_cases h : k = k2 <;> simp [setField, lookupField, h]
  | cons hd tl ih =>
      obtain ⟨k3, v3⟩ := hd
      by_cases h1 : k3 = k
      · subst h1
        by_cases h2 : k3 = k2 <;> simp [setField, lookupField, h2]
      · by_cases h2 : k3 = k2
        · subst h2
          have hk : ¬ k = k3 := fun h => h1 h.symm
          simp [setField, lookupField, h1, hk]
        · simp [setField, lookupField, h1, h2, ih]

theorem lookupField_some_mem (fs : Fields) (k : String) (v : Val)
    (h : lookupField fs k = some v) : (k, v) ∈ fs := by
  induction fs with
  | nil => simp [lookupField] at h
  | cons hd tl ih =>
      obtain ⟨k2, v2⟩ := hd
      by_cases h2 : k2 = k
      · subst h2
        simp [lookupField] at h
        simp [h]
      · simp [lookupField, h2] at h
        exact List.mem_cons_of_mem _ (ih h)

theorem lookupField_none_iff (fs : Fields) (k : String) :
    lookupField fs k = none ↔ k ∉ fs.map Prod.fst := by
  induction fs with
  | nil => simp [lookupField]
  | cons hd tl ih =>
      obtain ⟨k2, v2⟩ := hd
      by_cases h2 : k2 = k
      · subst h2
        simp [lookupField]
      · have hne : ¬ k = k2 := fun h => h2 h.symm
        simp [lookupField, h2, ih, hne]

theorem lookupField_of_mem_nodup (fs : Fields) (k : String) (v : Val)
    (hnd : nodupKeys fs) (hm : (k, v) ∈ fs) : lookupField fs k = some v := by
  induction fs with
  | nil => simp at hm
  | cons hd tl ih =>
      obtain ⟨k2, v2⟩ := hd
      rcases List.mem_cons.mp hm with heq | hmem
      · injection heq with h1 h2
        subst h1; subst h2
        simp [lookupField]
      · have hk2 : k2 ≠ k := by
          intro h
          subst h
          have : k2 ∈ tl.map Prod.fst := List.mem_map_of_mem Prod.fst hmem
          exact (List.nodup_cons.mp hnd).1 this
        have htl : nodupKeys tl := (List.nodup_cons.mp hnd).2
        simp [lookupField, hk2, ih htl hmem]

theorem setField_self (fs : Fields) (k : String) (v : Val)
    (h : lookupField fs k = some v) : setField fs k v = fs := by
  induction fs with
  | nil => simp [lookupField] at h
  | cons hd tl ih =>
      obtain ⟨k2, v2⟩ := hd
      by_cases h2 : k2 = k
      · subst h2
        simp [lookupField] at h
        simp [setField, h]
      · simp [lookupField, h2] at h
        simp [setField, h2, ih h]

theorem lookupField_filter_none (fs : Fields) (p : String × Val → Bool) (k : String)
    (h : ∀ v, p (k, v) = false) : lookupField (fs.filter p) k = none := by
  induction fs with
  | nil => simp [lookupField]
  | cons hd tl ih =>
      obtain ⟨k2, v2⟩ := hd
      by_cases hp : p (k2, v2) = true
      · have hk2 : k2 ≠ k := by
          intro he; subst he; rw [h v2] at hp; exact Bool.false_ne_true hp
        simp [List.filter_cons, hp, lookupField, hk2, ih]
      · simp at hp
        simp [List.filter_cons, hp, ih]

/-! ### Emission lemmas for the set trap and restoreSnapshot -/

theorem setTrap_suspended (e : EntityState) (k : String) (v : Val)
    (h : e.trackingSuspended = true) :
    setTrap e k v = ({ e with fields := setField e.fields k v }, []) := by
  cases hik : isInternalSnapshotKey k <;> simp [setTrap, hik, h]

theorem applySnapFields_cons (fs : Fields) (k : String) (v : Val) (rest : Fields) :
    applySnapFields fs ((k, v) :: rest)
      = applySnapFields
          (if snapshotKeyExcluded k then fs else setField fs k (deepClone v))
          rest := by
  by_cases h : snapshotKeyExcluded k = true <;> simp [applySnapFields, h]

theorem restore_foldl (snap : Fields) :
    ∀ (e : EntityState) (acc : List Emission), e.trackingSuspended = true →
      snap.foldl restoreStep (e, acc)
        = ({ fields := applySnapFields e.fields snap, trackingSuspended := true }, acc) := by
  induction snap with
  | nil =>
      intro e acc h
      cases e with
      | mk fs ts => simp [applySnapFields, List.foldl_nil] at h ⊢; exact h
  | cons kv rest ih =>
      obtain ⟨k1, v1⟩ := kv
      intro e acc h
      rw [List.foldl_cons, applySnapFields_cons]
      by_cases hex : snapshotKeyExcluded k1 = true
      · have hstep : restoreStep (e, acc) (k1, v1) = (e, acc) := by
          simp [restoreStep, hex]
        rw [hstep, ih e acc h, if_pos hex]
      · have hb : snapshotKeyExcluded k1 = false := by
          simpa using hex
        have hstep : restoreStep (e, acc) (k1, v1)
            = ({ fields := setField e.fields k1 (deepClone v1),
                 trackingSuspended := e.trackingSuspended }, acc) := by
          simp [restoreStep, hb, setTrap_suspended _ _ _ h]
        rw [hstep,
          ih { fields := setField e.fields k1 (deepClone v1),
               trackingSuspended := e.trackingSuspended } acc h]
        simp [hb]

theorem restoreSnapshot_eq (e : EntityState) (snap : Fields) :
    restoreSnapshot e snap
      = ({ fields := applySnapFields
              (e.fields.filter (fun kv =>
                snapshotKeyExcluded kv.1 || (snapKeys snap).contains kv.1))
              snap,
           trackingSuspended := false }, []) := by
  dsimp only [restoreSnapshot]
  rw [restore_foldl _ _ _ rfl]

/-! ### captureSnapshot lemmas -/

theorem captureSnapshot_eq_filter (e : EntityState) :
    captureSnapshot e = e.fields.filter (fun kv => !(snapshotKeyExcluded kv.1)) := by
  simp [captureSnapshot, deepClone]

theorem mem_captureSnapshot (e : EntityState) (kv : String × Val) :
    kv ∈ captureSnapshot e ↔ kv ∈ e.fields ∧ snapshotKeyExcluded kv.1 = false := by
  rw [captureSnapshot_eq_filter]
  simp [List.mem_filter]

theorem snapKeys_captureSnapshot_nodup (e : EntityState) (h : nodupKeys e.fields) :
    (snapKeys (captureSnapshot e)).Nodup := by
  rw [captureSnapshot_eq_filter]
  unfold snapKeys
  exact List.Nodup.sublist (List.Sublist.map Prod.fst (List.filter_sublist _)) h

theorem applySnapFields_nomem (snap : Fields) :
    ∀ (fs : Fields) (k : String), k ∉ snapKeys snap →
      lookupField (applySnapFields fs snap) k = lookupField fs k := by
  induction snap with
  | nil => intro fs k _; simp [applySnapFields]
  | cons kv rest ih =>
      obtain ⟨k1, v1⟩ := kv
      intro fs k hk
      have hk1 : k1 ≠ k := by
        intro he
        exact hk (by simp [snapKeys, he])
      have hkrest : k ∉ snapKeys rest := by
        intro hm
        apply hk
        simp only [snapKeys, List.map_cons]
        exact List.mem_cons_of_mem _ (by simpa [snapKeys] using hm)
      rw [applySnapFields_cons]
      by_cases hex : snapshotKeyExcluded k1 = true
      · rw [if_pos hex]; exact ih fs k hkrest
      · rw [if_neg (by simpa using hex), ih _ k hkrest, lookupField_setField,
          if_neg hk1]

theorem applySnapFields_mem (snap : Fields) :
    ∀ (fs : Fields) (k : String) (v : Val), (snapKeys snap).Nodup →
      (k, v) ∈ snap → snapshotKeyExcluded k = false →
      lookupField (applySnapFields fs snap) k = some (deepClone v) := by
  induction snap with
  | nil => intro fs k v _ hm _; simp at hm
  | cons kv rest ih =>
      obtain ⟨k1, v1⟩ := kv
      intro fs k v hnd hm hex
      have hndc := List.nodup_cons.mp (by simpa [snapKeys] using hnd :
        (k1 :: rest.map Prod.fst).Nodup)
      rcases List.mem_cons.mp hm with heq | hmem
      · injection heq with hk hv
        subst hk; subst hv
        have hnotin : k ∉ snapKeys rest := by simpa [snapKeys] using hndc.1
        rw [applySnapFields_cons, if_neg (by simp [hex]),
          applySnapFields_nomem rest _ k hnotin, lookupField_setField, if_pos rfl]
      · have hk1 : k1 ≠ k := by
          intro he
          subst he
          exact hndc.1 (by simpa [snapKeys] using List.mem_map_of_mem Prod.fst hmem)
        have hndrest : (snapKeys rest).Nodup := by simpa [snapKeys] using hndc.2
        rw [applySnapFields_cons]
        by_cases hexx : snapshotKeyExcluded k1 = true
        · rw [if_pos hexx]; exact ih fs k v hndrest hmem hex
        · rw [if_neg (by simpa using hexx)]
          exact ih _ k v hndrest hmem hex

/-! ### Claim theorems: entity layer -/

/-- C6: a write through the proxy to a non-reserved, non-internal field with a
changed value (strict identity) performs the write and emits, in order,
Updating on the lifecycle stream, Updated on the property stream, Updated on
the lifecycle stream, all with the payload of property, old value and new
value. -/
theorem c6_tracked_write (e : EntityState) (k : String) (v : Val)
    (hsusp : e.trackingSuspended = false)
    (hint : isInternalSnapshotKey k = false)
    (hund : isUnderscoreKey k = false)
    (hch : objectIs (getField e.fields k) v = false) :
    setTrap e k v
      = ({ e with fields := setField e.fields k v },
         [Emission.lifecycle EntityEvent.updating
            (some ⟨k, getField e.fields k, v⟩),
          Emission.propertyChange EntityEvent.updated ⟨k, getField e.fields k, v⟩,
          Emission.lifecycle EntityEvent.updated
            (some ⟨k, getField e.fields k, v⟩)]) := by
  simp [setTrap, hsusp, hint, hund, hch]

theorem c6_witness :
    (⟨[("foo", Val.vstr "a")], false⟩ : EntityState).trackingSuspended = false ∧
    setTrap ⟨[("foo", Val.vstr "a")], false⟩ "foo" (Val.vstr "b")
      = (⟨[("foo", Val.vstr "b")], false⟩,
         [Emission.lifecycle EntityEvent.updating
            (some (PropPayload.mk "foo" (Val.vstr "a") (Val.vstr "b"))),
          Emission.propertyChange EntityEvent.updated
            ⟨"foo", Val.vstr "a", Val.vstr "b"⟩,
          Emission.lifecycle EntityEvent.updated
            (some (PropPayload.mk "foo" (Val.vstr "a") (Val.vstr "b")))]) := by
  have h := c6_tracked_write ⟨[("foo", Val.vstr "a")], false⟩ "foo" (Val.vstr "b")
    rfl (by decide) (by decide) (by decide)
  exact ⟨rfl, h.trans (by decide)⟩

/-- C7 counterexample: assigning undefined to an absent non-reserved field is
an unchanged write (Reflect.get yields undefined, Object.is holds), so the
trap emits nothing - but, contrary to the claim, it also skips the assignment
entirely: afterwards the field is still not an own property, whereas a
physically performed assignment would have created it. -/
theorem c7_counterexample :
    (setTrap ⟨[], false⟩ "foo" Val.undef).2 = [] ∧
    (setTrap ⟨[], false⟩ "foo" Val.undef).1 = (⟨[], false⟩ : EntityState) ∧
    hasOwnField (setTrap ⟨[], false⟩ "foo" Val.undef).1.fields "foo" = false ∧
    hasOwnField (setField ([] : Fields) "foo" Val.undef) "foo" = true := by
  decide

/-- C7 (amended): a write through the proxy to a non-reserved, non-internal
field whose new value is identical (strict identity) to the current value
emits no event on either stream and performs no assignment at all - the trap
returns success leaving the entity unchanged; in particular assigning
undefined to an absent field does not create the own property. -/
theorem c7_unchanged_silent (e : EntityState) (k : String) (v : Val)
    (hsusp : e.trackingSuspended = false)
    (hint : isInternalSnapshotKey k = false)
    (hund : isUnderscoreKey k = false)
    (heq : objectIs (getField e.fields k) v = true) :
    setTrap e k v = (e, []) := by
  simp [setTrap, hsusp, hint, hund, heq]

theorem c7_witness :
    objectIs (getField [("foo", Val.vstr "a")] "foo") (Val.vstr "a") = true ∧
    setTrap ⟨[("foo", Val.vstr "a")], false⟩ "foo" (Val.vstr "a")
      = (⟨[("foo", Val.vstr "a")], false⟩, []) := by
  have h := c7_unchanged_silent ⟨[("foo", Val.vstr "a")], false⟩ "foo" (Val.vstr "a")
    rfl (by decide) (by decide) (by decide)
  exact ⟨by decide, h⟩

/-- C1: restoring a snapshot produced by captureSnapshot emits nothing - no
lifecycle emission, no property emission, and consequently nothing on the
stream of any subscribing collection - deletes every non-reserved,
non-internal own field absent from the snapshot, and sets every snapshot field
to a deep clone of the snapshot value. -/
theorem c1_restore_silence (e e0 : EntityState) (h0 : nodupKeys e0.fields) :
    (restoreSnapshot e (captureSnapshot e0)).2 = [] ∧
    (∀ (k : String) (v : Val), lookupField (captureSnapshot e0) k = some v →
      lookupField (restoreSnapshot e (captureSnapshot e0)).1.fields k
        = some (deepClone v)) ∧
    (∀ k : String, snapshotKeyExcluded k = false →
      lookupField (captureSnapshot e0) k = none →
      lookupField (restoreSnapshot e (captureSnapshot e0)).1.fields k = none) ∧
    (∀ (sysc : Sys) (t id : Nat),
      handleEms t id (sysc, []) (restoreSnapshot e (captureSnapshot e0)).2
        = (sysc, [])) := by
  have hnd : (snapKeys (captureSnapshot e0)).Nodup :=
    snapKeys_captureSnapshot_nodup e0 h0
  refine ⟨by rw [restoreSnapshot_eq], ?_, ?_, ?_⟩
  · intro k v hk
    have hmem : (k, v) ∈ captureSnapshot e0 := lookupField_some_mem _ _ _ hk
    have hex : snapshotKeyExcluded k = false :=
      ((mem_captureSnapshot e0 (k, v)).mp hmem).2
    rw [restoreSnapshot_eq]
    exact applySnapFields_mem _ _ k v hnd hmem hex
  · intro k hex hnone
    have hkn : k ∉ snapKeys (captureSnapshot e0) := by
      have := (lookupField_none_iff (captureSnapshot e0) k).mp hnone
      simpa [snapKeys] using this
    rw [restoreSnapshot_eq]
    rw [applySnapFields_nomem _ _ k hkn]
    apply lookupField_filter_none
    intro v
    simp [hex]
    intro hmem
    exact hkn (by simpa [snapKeys] using hmem)
  · intro sysc t id
    rw [restoreSnapshot_eq]
    rfl

/-! ### Collection layer lemmas -/

theorem lookupEnt_setEnt (h : Heap) (id : Nat) (e : EntityState) (id2 : Nat) :
    lookupEnt (setEnt h id e) id2
      = if id = id2 then some e else lookupEnt h id2 := by
  induction h with
  | nil =>
      by_cases hi : id = id2 <;> simp [setEnt, lookupEnt, hi]
  | cons hd tl ih =>
      obtain ⟨i3, e3⟩ := hd
      by_cases h1 : i3 = id
      · subst h1
        by_cases h2 : i3 = id2 <;> simp [setEnt, lookupEnt, h2]
      · by_cases h2 : i3 = id2
        · subst h2
          have hk : ¬ id = i3 := fun hh => h1 hh.symm
          simp [setEnt, lookupEnt, h1, hk]
        · simp [setEnt, lookupEnt, h1, h2, ih]

theorem getEnt_setEnt (h : Heap) (id : Nat) (e : EntityState) (id2 : Nat) :
    getEnt (setEnt h id e) id2 = if id = id2 then e else getEnt h id2 := by
  unfold getEnt
  rw [lookupEnt_setEnt]
  by_cases hi : id = id2 <;> simp [hi]

theorem handleEms_nil (t id : Nat) (acc : Sys × List CEvent) :
    handleEms t id acc [] = acc := rfl

theorem restoreOne_plain (t : Nat) (acc : Sys × List CEvent) (v : Val) (snp : Fields) :
    restoreOne t acc ⟨Item.plain v, snp⟩ = acc := by
  obtain ⟨sys, evs⟩ := acc
  rfl

theorem restoreOne_entity (t : Nat) (sys : Sys) (evs : List CEvent) (id : Nat)
    (snp : Fields) :
    restoreOne t (sys, evs) ⟨Item.entity id, snp⟩
      = ({ sys with
            heap := setEnt sys.heap id (restoreSnapshot (getEnt sys.heap id) snp).1 },
         evs) := by
  show handleEms t id _ (restoreSnapshot (getEnt sys.heap id) snp).2 = _
  rw [restoreSnapshot_eq]
  rfl

/-- restoreItemSnapshots only rewrites the heap and emits nothing: every write
inside restoreSnapshot goes through the suspended trap, so there is no
emission for the collection handlers to react to. -/
theorem restoreAll_eq (snaps : List ItemSnap) :
    ∀ (t : Nat) (sys : Sys) (evs : List CEvent),
      snaps.foldl (restoreOne t) (sys, evs)
        = ({ sys with heap := restoreHeap sys.heap snaps }, evs) := by
  induction snaps with
  | nil => intro t sys evs; rfl
  | cons entry rest ih =>
      intro t sys evs
      obtain ⟨it, snp⟩ := entry
      cases it with
      | plain v =>
          rw [List.foldl_cons, restoreOne_plain, ih]
          rfl
      | entity id =>
          rw [List.foldl_cons, restoreOne_entity, ih]
          rfl

theorem restoreAll_def_eq (t : Nat) (sys : Sys) (snaps : List ItemSnap) :
    restoreAll t sys snaps = ({ sys with heap := restoreHeap sys.heap snaps }, []) := by
  unfold restoreAll
  exact restoreAll_eq snaps t sys []

theorem applySnapFields_self (snap : Fields) :
    ∀ fs : Fields, (∀ kv ∈ snap, lookupField fs kv.1 = some (deepClone kv.2)) →
      applySnapFields fs snap = fs := by
  induction snap with
  | nil => intro fs _; rfl
  | cons kv rest ih =>
      obtain ⟨k1, v1⟩ := kv
      intro fs hall
      rw [applySnapFields_cons]
      by_cases hex : snapshotKeyExcluded k1 = true
      · rw [if_pos hex]
        exact ih fs (fun kv2 h2 => hall kv2 (List.mem_cons_of_mem _ h2))
      · rw [if_neg (by simpa using hex)]
        have h1 : lookupField fs k1 = some (deepClone v1) :=
          hall (k1, v1) (List.mem_cons_self _ _)
        rw [setField_self fs k1 (deepClone v1) h1]
        exact ih fs (fun kv2 h2 => hall kv2 (List.mem_cons_of_mem _ h2))

/-- Capture followed by restore is the identity on a quiescent entity. -/
theorem restore_capture_roundtrip (e : EntityState) (hw : wfEnt e) :
    restoreSnapshot e (captureSnapshot e) = (e, []) := by
  obtain ⟨hsusp, hnd⟩ := hw
  rw [restoreSnapshot_eq]
  have hfil : e.fields.filter (fun kv =>
      snapshotKeyExcluded kv.1 || (snapKeys (captureSnapshot e)).contains kv.1)
      = e.fields := by
    rw [List.filter_eq_self]
    intro kv hkv
    by_cases hex : snapshotKeyExcluded kv.1 = true
    · simp [hex]
    · have hexf : snapshotKeyExcluded kv.1 = false := by simpa using hex
      have hmem : kv ∈ captureSnapshot e :=
        (mem_captureSnapshot e kv).mpr ⟨hkv, hexf⟩
      have hkey : kv.1 ∈ snapKeys (captureSnapshot e) :=
        List.mem_map_of_mem Prod.fst hmem
      simp [hkey]
  rw [hfil]
  have happ : applySnapFields e.fields (captureSnapshot e) = e.fields := by
    apply applySnapFields_self
    intro kv hkv
    obtain ⟨k, v⟩ := kv
    have hmem : (k, v) ∈ e.fields := ((mem_captureSnapshot e (k, v)).mp hkv).1
    exact lookupField_of_mem_nodup e.fields k v hnd hmem
  rw [happ]
  cases e with
  | mk fs ts =>
      simp only at hsusp
      rw [hsusp]

/-- A restore of snapshots captured from an extensionally equal heap restores
that heap pointwise. -/
theorem restoreHeap_capture (items : List Item) (heap0 : Heap)
    (hwf : ∀ id, wfEnt (getEnt heap0 id)) :
    ∀ h : Heap, (∀ id, getEnt h id = getEnt heap0 id) →
      ∀ id, getEnt (restoreHeap h (captureItemSnaps heap0 items)) id
        = getEnt heap0 id := by
  induction items with
  | nil => intro h hinv id; exact hinv id
  | cons it rest ih =>
      cases it with
      | plain v =>
          intro h hinv id
          have : captureItemSnaps heap0 (Item.plain v :: rest)
              = captureItemSnaps heap0 rest := by
            simp [captureItemSnaps]
          rw [this]
          exact ih h hinv id
      | entity eid =>
          intro h hinv id
          have hcons : captureItemSnaps heap0 (Item.entity eid :: rest)
              = ⟨Item.entity eid, captureSnapshot (getEnt heap0 eid)⟩
                :: captureItemSnaps heap0 rest := by
            simp [captureItemSnaps]
          rw [hcons]
          show getEnt (restoreHeap
            (setEnt h eid
              (restoreSnapshot (getEnt h eid) (captureSnapshot (getEnt heap0 eid))).1)
            (captureItemSnaps heap0 rest)) id = getEnt heap0 id
          apply ih
          intro id2
          rw [getEnt_setEnt]
          by_cases hid : eid = id2
          · subst hid
            rw [if_pos rfl, hinv eid,
              restore_capture_roundtrip (getEnt heap0 eid) (hwf eid)]
          · rw [if_neg hid]
            exact hinv id2

theorem c1_witness :
    nodupKeys ([("foo", Val.vstr "a")] : Fields) ∧
    (restoreSnapshot ⟨[("foo", Val.vstr "b"), ("extra", Val.vint 2)], false⟩
        (captureSnapshot ⟨[("foo", Val.vstr "a")], false⟩)).2 = [] ∧
    lookupField (restoreSnapshot ⟨[("foo", Val.vstr "b"), ("extra", Val.vint 2)], false⟩
        (captureSnapshot ⟨[("foo", Val.vstr "a")], false⟩)).1.fields "foo"
      = some (deepClone (Val.vstr "a")) ∧
    lookupField (restoreSnapshot ⟨[("foo", Val.vstr "b"), ("extra", Val.vint 2)], false⟩
        (captureSnapshot ⟨[("foo", Val.vstr "a")], false⟩)).1.fields "extra" = none := by
  have h := c1_restore_silence
    ⟨[("foo", Val.vstr "b"), ("extra", Val.vint 2)], false⟩
    ⟨[("foo", Val.vstr "a")], false⟩ (by decide)
  exact ⟨by decide, h.1, h.2.1 "foo" (Val.vstr "a") (by decide),
    h.2.2.1 "extra" (by decide) (by decide)⟩

/-! ### Operation characterizations -/

theorem addOp_eq (t : Nat) (sys : Sys) (x : Item) :
    addOp t sys x
      = ({ sys with
            items := sys.items ++ [x],
            subs := subscribeToItem sys.subs x,
            history := if !sys.transactionActive && sys.enableSnapshots
              then sys.history ++ [captureCollectionSnapshot t sys]
              else sys.history },
         [CEvent.addEv x]) := by
  unfold addOp snapshotOp
  by_cases hc : (!sys.transactionActive && sys.enableSnapshots) = true
  · have hna : sys.transactionActive = false := by
      have := (Bool.and_eq_true _ _ |>.mp hc).1
      simpa using this
    have hsn : sys.enableSnapshots = true := (Bool.and_eq_true _ _ |>.mp hc).2
    simp [hna, hsn]
  · simp [hc]

theorem removeOp_eq (t : Nat) (sys : Sys) (x : Item) :
    removeOp t sys x
      = ({ sys with
            items := sys.items.filter (fun ci => ci != x),
            subs := resubscribeAll (sys.items.filter (fun ci => ci != x)),
            history := if !sys.transactionActive && sys.enableSnapshots
              then sys.history ++ [captureCollectionSnapshot t sys]
              else sys.history },
         [CEvent.removeEv x]) := by
  unfold removeOp replaceItems snapshotOp
  by_cases hc : (!sys.transactionActive && sys.enableSnapshots) = true
  · have hna : sys.transactionActive = false := by
      have := (Bool.and_eq_true _ _ |>.mp hc).1
      simpa using this
    have hsn : sys.enableSnapshots = true := (Bool.and_eq_true _ _ |>.mp hc).2
    simp [hna, hsn, captureCollectionSnapshot]
  · simp [hc]

theorem beginTx_history (t : Nat) (sys : Sys) :
    (step sys t Op.beginTx).1.history = sys.history := by
  simp only [step]
  unfold beginTransactionOp
  split_ifs <;> rfl

theorem rollbackTx_history (t : Nat) (sys : Sys) :
    (step sys t Op.rollbackTx).1.history = sys.history := by
  simp only [step]
  unfold rollbackTransactionOp
  split_ifs
  · rfl
  · rfl
  · cases hin : sys.transactionInitialState with
    | none => rfl
    | some anchor => simp [restoreAll_def_eq, replaceItems]

theorem commitTx_inactive (sys : Sys) (hact : sys.transactionActive = false) :
    commitTransactionOp sys = (sys, []) := by
  unfold commitTransactionOp
  cases htr : sys.enableTransactions <;>
    cases htok : sys.transactionToken <;>
      simp [hact, htr, htok]

theorem commitTx_history_active (sys : Sys) (tk : Nat)
    (hen : sys.enableTransactions = true) (hact : sys.transactionActive = true)
    (htok : sys.transactionToken = some tk) :
    (commitTransactionOp sys).1.history
      = if sys.enableSnapshots
        then sys.history ++ [captureCollectionSnapshot tk sys]
        else sys.history := by
  unfold commitTransactionOp
  by_cases hsn : sys.enableSnapshots = true <;> simp [hen, htok, hact, hsn]

theorem setFieldOp_history_tx (t : Nat) (sys : Sys) (id : Nat) (k : String) (v : Val)
    (hact : sys.transactionActive = true) :
    (setFieldOp t sys id k v).1.history = sys.history := by
  unfold setFieldOp
  cases h1 : isInternalSnapshotKey k <;>
    cases h2 : (getEnt sys.heap id).trackingSuspended <;>
      cases h3 : isUnderscoreKey k <;>
        cases h4 : objectIs (getField (getEnt sys.heap id).fields k) v <;>
          simp [hact, h1, h2, h3, h4]

theorem rollback_history (t : Nat) (sys : Sys) :
    (step sys t Op.rollback).1.history = sys.history.dropLast := by
  simp only [step]
  unfold rollbackOp
  cases hl : sys.history.getLast? with
  | none =>
      have hnil : sys.history = [] := List.getLast?_eq_none_iff.mp hl
      simp [hnil]
  | some s => simp [restoreAll_def_eq, replaceItems]

/-! ### Claim theorems: collection layer -/

/-- C8: rollback on an empty snapshot history is a true no-op: no event is
emitted and the whole system state (items, history, transaction fields,
subscriptions, entity heap) is untouched. -/
theorem c8_rollback_empty_noop (sys : Sys) (t : Nat) (h : sys.history = []) :
    step sys t Op.rollback = (sys, []) := by
  simp only [step]
  unfold rollbackOp
  simp [h]

theorem c8_witness :
    (Sys.mk [Item.plain (Val.vint 1)] [] false none none true true [] []).history
      = [] ∧
    step (Sys.mk [Item.plain (Val.vint 1)] [] false none none true true [] []) 5
        Op.rollback
      = (Sys.mk [Item.plain (Val.vint 1)] [] false none none true true [] [], []) := by
  exact ⟨rfl, c8_rollback_empty_noop _ 5 rfl⟩

/-- C10: remove(x) drops all and only the occurrences reference-identical to
x - so the sequence is unchanged when x is absent - always emits one remove
event with x as payload, and, outside a transaction with snapshots enabled,
always pushes one pre-mutation snapshot first: remove is never a fully silent
no-op. -/
theorem c10_remove_semantics (sys : Sys) (t : Nat) (x : Item) :
    ((step sys t (Op.remove x)).1.items = sys.items.filter (fun ci => ci != x)) ∧
    (sys.items.contains x = false → (step sys t (Op.remove x)).1.items = sys.items) ∧
    ((step sys t (Op.remove x)).2 = [CEvent.removeEv x]) ∧
    ((step sys t (Op.remove x)).1.history
      = if !sys.transactionActive && sys.enableSnapshots
        then sys.history ++ [captureCollectionSnapshot t sys]
        else sys.history) := by
  have hstep : step sys t (Op.remove x) = removeOp t sys x := rfl
  rw [hstep, removeOp_eq]
  refine ⟨rfl, ?_, rfl, rfl⟩
  intro hnp
  have hx : x ∉ sys.items := by simpa using hnp
  show sys.items.filter (fun ci => ci != x) = sys.items
  rw [List.filter_eq_self]
  intro a ha
  exact bne_iff_ne.mpr (fun he => hx (he ▸ ha))

theorem c10_witness :
    (step (Sys.mk [Item.plain (Val.vint 1), Item.plain (Val.vint 2),
        Item.plain (Val.vint 1)] [] false none none true false [] []) 7
        (Op.remove (Item.plain (Val.vint 1)))).1.items
      = [Item.plain (Val.vint 2)] ∧
    (step (Sys.mk [Item.plain (Val.vint 1), Item.plain (Val.vint 2),
        Item.plain (Val.vint 1)] [] false none none true false [] []) 7
        (Op.remove (Item.plain (Val.vint 1)))).2
      = [CEvent.removeEv (Item.plain (Val.vint 1))] ∧
    ([Item.plain (Val.vint 2)] : List Item).contains (Item.plain (Val.vint 1))
      = false ∧
    (step (Sys.mk [Item.plain (Val.vint 2)] [] false none none true false [] []) 8
        (Op.remove (Item.plain (Val.vint 1)))).1.items
      = [Item.plain (Val.vint 2)] := by
  have h1 := c10_remove_semantics
    (Sys.mk [Item.plain (Val.vint 1), Item.plain (Val.vint 2),
      Item.plain (Val.vint 1)] [] false none none true false [] []) 7
    (Item.plain (Val.vint 1))
  have h2 := c10_remove_semantics
    (Sys.mk [Item.plain (Val.vint 2)] [] false none none true false [] []) 8
    (Item.plain (Val.vint 1))
  exact ⟨h1.1.trans (by decide), h1.2.2.1, by decide, h2.2.1 (by decide)⟩

/-- C5: while a transaction is active, add, remove, member-entity Updating
events (field writes), beginTransaction and rollbackTransaction leave the
snapshot history untouched; the only entry added in the interval is the single
boundary entry pushed by commitTransaction when snapshots are enabled (and
none when they are disabled). -/
theorem c5_tx_suppression (sys : Sys) (t : Nat) (it : Item) (id : Nat)
    (k : String) (v : Val) (tk : Nat)
    (hact : sys.transactionActive = true)
    (htok : sys.transactionToken = some tk)
    (hen : sys.enableTransactions = true) :
    ((step sys t (Op.add it)).1.history = sys.history) ∧
    ((step sys t (Op.remove it)).1.history = sys.history) ∧
    ((step sys t (Op.setF id k v)).1.history = sys.history) ∧
    ((step sys t Op.beginTx).1.history = sys.history) ∧
    ((step sys t Op.rollbackTx).1.history = sys.history) ∧
    ((step sys t Op.commitTx).1.history
      = if sys.enableSnapshots
        then sys.history ++ [captureCollectionSnapshot tk sys]
        else sys.history) := by
  refine ⟨?_, ?_, ?_, beginTx_history t sys, rollbackTx_history t sys, ?_⟩
  · have hstep : step sys t (Op.add it) = addOp t sys it := rfl
    rw [hstep, addOp_eq]
    simp [hact]
  · have hstep : step sys t (Op.remove it) = removeOp t sys it := rfl
    rw [hstep, removeOp_eq]
    simp [hact]
  · exact setFieldOp_history_tx t sys id k v hact
  · exact commitTx_history_active sys tk hen hact htok

theorem c5_witness :
    (Sys.mk [Item.plain (Val.vint 1)] [] true (some 3)
        (some ⟨3, [Item.plain (Val.vint 1)], []⟩) true true [] []).transactionActive
      = true ∧
    (step (Sys.mk [Item.plain (Val.vint 1)] [] true (some 3)
        (some ⟨3, [Item.plain (Val.vint 1)], []⟩) true true [] []) 9
        (Op.add (Item.plain (Val.vint 2)))).1.history = [] ∧
    (step (Sys.mk [Item.plain (Val.vint 1)] [] true (some 3)
        (some ⟨3, [Item.plain (Val.vint 1)], []⟩) true true [] []) 9
        Op.commitTx).1.history
      = [captureCollectionSnapshot 3
          (Sys.mk [Item.plain (Val.vint 1)] [] true (some 3)
            (some ⟨3, [Item.plain (Val.vint 1)], []⟩) true true [] [])] := by
  have h := c5_tx_suppression
    (Sys.mk [Item.plain (Val.vint 1)] [] true (some 3)
      (some ⟨3, [Item.plain (Val.vint 1)], []⟩) true true [] []) 9
    (Item.plain (Val.vint 2)) 0 "k" Val.undef 3 rfl rfl rfl
  refine ⟨rfl, h.1, ?_⟩
  rw [h.2.2.2.2.2]
  rfl

theorem lookupEnt_some_mem (h : Heap) (id : Nat) (e : EntityState)
    (hl : lookupEnt h id = some e) : (id, e) ∈ h := by
  induction h with
  | nil => simp [lookupEnt] at hl
  | cons hd tl ih =>
      obtain ⟨i2, e2⟩ := hd
      by_cases h2 : i2 = id
      · subst h2
        simp [lookupEnt] at hl
        simp [hl]
      · simp [lookupEnt, h2] at hl
        exact List.mem_cons_of_mem _ (ih hl)

/-- Quiescence of every dereferenced entity follows from quiescence of the
heap entries (an unused id dereferences to the fresh empty entity). -/
theorem wfEnt_getEnt_of_all (h : Heap) (hall : ∀ p ∈ h, wfEnt p.2) :
    ∀ id, wfEnt (getEnt h id) := by
  intro id
  unfold getEnt
  cases hl : lookupEnt h id with
  | none =>
      refine ⟨rfl, ?_⟩
      exact List.nodup_nil
  | some e =>
      have hmem : (id, e) ∈ h := lookupEnt_some_mem h id e hl
      simpa using hall (id, e) hmem

theorem beginTx_success (t : Nat) (sys : Sys)
    (hen : sys.enableTransactions = true) (hact : sys.transactionActive = false) :
    (step sys t Op.beginTx).1
      = { sys with
            transactionActive := true,
            transactionToken := some t,
            transactionInitialState := some (captureCollectionSnapshot t sys) } := by
  simp only [step]
  unfold beginTransactionOp
  simp [hen, hact]

/-- C4 counterexample: with snapshots enabled but a transaction active, add
skips its pre-mutation snapshot, so a following rollback finds an empty
history and no-ops - the added item survives, and the surviving items are not
the references held before the add, refuting the claim as frozen (which does
not exclude an active transaction). -/
theorem c4_counterexample :
    c4xSys0.enableSnapshots = true ∧
    (step (step c4xSys0 6 (Op.add (Item.plain (Val.vint 2)))).1 7
        Op.rollback).1.items
      = [Item.plain (Val.vint 1), Item.plain (Val.vint 2)] ∧
    ([Item.plain (Val.vint 1), Item.plain (Val.vint 2)] : List Item)
      ≠ [Item.plain (Val.vint 1)] := by
  decide

/-- C4 (amended): with snapshots enabled and no transaction active, add(x)
followed by rollback() leaves the item sequence exactly as before the add -
the very same item references, with no entity instance reconstructed - and
restores every entity in the heap to its pre-add state via restoreSnapshot. -/
theorem c4_identity_preservation (sys : Sys) (t1 t2 : Nat) (x : Item)
    (hsn : sys.enableSnapshots = true)
    (htx : sys.transactionActive = false)
    (hwf : ∀ id, wfEnt (getEnt sys.heap id)) :
    ((step (step sys t1 (Op.add x)).1 t2 Op.rollback).1.items = sys.items) ∧
    (∀ id, getEnt (step (step sys t1 (Op.add x)).1 t2 Op.rollback).1.heap id
      = getEnt sys.heap id) := by
  have hcond : (!sys.transactionActive && sys.enableSnapshots) = true := by
    rw [htx, hsn]
    rfl
  have hA : (step sys t1 (Op.add x)).1
      = { sys with
            items := sys.items ++ [x],
            subs := subscribeToItem sys.subs x,
            history := sys.history ++ [captureCollectionSnapshot t1 sys] } := by
    have hstepA : step sys t1 (Op.add x) = addOp t1 sys x := rfl
    rw [hstepA, addOp_eq, hcond]
    simp
  rw [hA]
  simp only [step]
  unfold rollbackOp
  rw [show ({ sys with
        items := sys.items ++ [x],
        subs := subscribeToItem sys.subs x,
        history := sys.history ++ [captureCollectionSnapshot t1 sys] } : Sys).history
      = sys.history ++ [captureCollectionSnapshot t1 sys] from rfl,
    List.getLast?_concat]
  simp only [replaceItems, restoreAll_def_eq, List.dropLast_concat]
  constructor
  · rfl
  · intro id
    exact restoreHeap_capture sys.items sys.heap hwf sys.heap (fun _ => rfl) id

theorem c4_witness :
    (Sys.mk [Item.entity 0] [] false none none true false [0]
        [(0, ⟨[("foo", Val.vstr "a")], false⟩)]).enableSnapshots = true ∧
    (step (step (Sys.mk [Item.entity 0] [] false none none true false [0]
        [(0, ⟨[("foo", Val.vstr "a")], false⟩)]) 1 (Op.add (Item.entity 1))).1 2
        Op.rollback).1.items = [Item.entity 0] ∧
    getEnt (step (step (Sys.mk [Item.entity 0] [] false none none true false [0]
        [(0, ⟨[("foo", Val.vstr "a")], false⟩)]) 1 (Op.add (Item.entity 1))).1 2
        Op.rollback).1.heap 0
      = ⟨[("foo", Val.vstr "a")], false⟩ := by
  have h := c4_identity_preservation
    (Sys.mk [Item.entity 0] [] false none none true false [0]
      [(0, ⟨[("foo", Val.vstr "a")], false⟩)]) 1 2 (Item.entity 1)
    rfl rfl (wfEnt_getEnt_of_all _ (by decide))
  refine ⟨rfl, h.1, (h.2 0).trans ?_⟩
  decide

theorem structOp_preserves (sys : Sys) (t : Nat) (op : Op)
    (hop : isStructOp op = true) :
    (step sys t op).1.heap = sys.heap ∧
    (step sys t op).1.transactionActive = sys.transactionActive ∧
    (step sys t op).1.transactionToken = sys.transactionToken ∧
    (step sys t op).1.transactionInitialState = sys.transactionInitialState ∧
    (step sys t op).1.enableTransactions = sys.enableTransactions := by
  cases op with
  | add it =>
      have h : step sys t (Op.add it) = addOp t sys it := rfl
      rw [h, addOp_eq]
      exact ⟨rfl, rfl, rfl, rfl, rfl⟩
  | remove it =>
      have h : step sys t (Op.remove it) = removeOp t sys it := rfl
      rw [h, removeOp_eq]
      exact ⟨rfl, rfl, rfl, rfl, rfl⟩
  | setF id k v => simp [isStructOp] at hop
  | beginTx => simp [isStructOp] at hop
  | commitTx => simp [isStructOp] at hop
  | rollbackTx => simp [isStructOp] at hop
  | commit => simp [isStructOp] at hop
  | rollback => simp [isStructOp] at hop

theorem runTrace_struct (ops : List (Nat × Op)) :
    ∀ sys : Sys, (∀ p ∈ ops, isStructOp p.2 = true) →
      (runTrace sys ops).heap = sys.heap ∧
      (runTrace sys ops).transactionActive = sys.transactionActive ∧
      (runTrace sys ops).transactionToken = sys.transactionToken ∧
      (runTrace sys ops).transactionInitialState = sys.transactionInitialState ∧
      (runTrace sys ops).enableTransactions = sys.enableTransactions := by
  induction ops with
  | nil => intro sys _; exact ⟨rfl, rfl, rfl, rfl, rfl⟩
  | cons p rest ih =>
      intro sys hall
      obtain ⟨t, op⟩ := p
      have hop : isStructOp op = true := hall (t, op) (List.mem_cons_self _ _)
      have hrest := ih (step sys t op).1
        (fun q hq => hall q (List.mem_cons_of_mem _ hq))
      have hpres := structOp_preserves sys t op hop
      show (runTrace (step sys t op).1 rest).heap = sys.heap ∧ _
      exact ⟨hrest.1.trans hpres.1,
        hrest.2.1.trans hpres.2.1,
        hrest.2.2.1.trans hpres.2.2.1,
        hrest.2.2.2.1.trans hpres.2.2.2.1,
        hrest.2.2.2.2.trans hpres.2.2.2.2⟩

/-- C3: for any sequence of add and remove operations performed between
beginTransaction and rollbackTransaction, after the rollback the item
sequence equals exactly the sequence at beginTransaction and every entity of
the heap - in particular every member entity - carries exactly the trackable
fields it had at beginTransaction. -/
theorem c3_transaction_atomicity (sys : Sys) (t0 t1 : Nat) (ops : List (Nat × Op))
    (hen : sys.enableTransactions = true)
    (hact : sys.transactionActive = false)
    (hops : ∀ p ∈ ops, isStructOp p.2 = true)
    (hwf : ∀ id, wfEnt (getEnt sys.heap id)) :
    ((step (runTrace (step sys t0 Op.beginTx).1 ops) t1 Op.rollbackTx).1.items
        = (step sys t0 Op.beginTx).1.items) ∧
    (∀ id,
      getEnt (step (runTrace (step sys t0 Op.beginTx).1 ops) t1
          Op.rollbackTx).1.heap id
        = getEnt (step sys t0 Op.beginTx).1.heap id) := by
  have hbegin := beginTx_success t0 sys hen hact
  have h2 := runTrace_struct ops (step sys t0 Op.beginTx).1 hops
  rw [hbegin] at h2 ⊢
  dsimp only at h2
  obtain ⟨hheap, hactv, htokv, hinit, hentv⟩ := h2
  have hent2 := hentv.trans hen
  simp only [step]
  unfold rollbackTransactionOp
  rw [hent2, hactv, hinit]
  simp only [Bool.not_true, Bool.false_eq_true, if_false, replaceItems,
    restoreAll_def_eq]
  constructor
  · rfl
  · intro id
    show getEnt (restoreHeap _ (captureCollectionSnapshot t0 sys).itemSnapshots) id
        = getEnt sys.heap id
    exact restoreHeap_capture sys.items sys.heap hwf _
      (fun i => congrArg (fun hh => getEnt hh i) hheap) id

theorem c3_witness :
    (Sys.mk [Item.entity 0] [] false none none true true [0]
        [(0, ⟨[("foo", Val.vstr "a")], false⟩)]).enableTransactions = true ∧
    (step (runTrace (step (Sys.mk [Item.entity 0] [] false none none true true [0]
          [(0, ⟨[("foo", Val.vstr "a")], false⟩)]) 1 Op.beginTx).1
        [(2, Op.add (Item.entity 1)), (3, Op.remove (Item.entity 0))]) 4
        Op.rollbackTx).1.items = [Item.entity 0] ∧
    getEnt (step (runTrace (step (Sys.mk [Item.entity 0] [] false none none true true [0]
          [(0, ⟨[("foo", Val.vstr "a")], false⟩)]) 1 Op.beginTx).1
        [(2, Op.add (Item.entity 1)), (3, Op.remove (Item.entity 0))]) 4
        Op.rollbackTx).1.heap 0
      = ⟨[("foo", Val.vstr "a")], false⟩ := by
  have h := c3_transaction_atomicity
    (Sys.mk [Item.entity 0] [] false none none true true [0]
      [(0, ⟨[("foo", Val.vstr "a")], false⟩)]) 1 4
    [(2, Op.add (Item.entity 1)), (3, Op.remove (Item.entity 0))]
    rfl rfl (by decide) (wfEnt_getEnt_of_all _ (by decide))
  refine ⟨rfl, h.1.trans ?_, (h.2 0).trans ?_⟩
  · rfl
  · decide

/-- C2 counterexample: when the same entity has been added twice, the
collection holds two lifecycle subscriptions to it, so a single Updating
event (one changed field write) pushes two history entries, not exactly
one: after the two adds the history has 2 entries, and the single write
brings it to 4. -/
theorem c2_counterexample :
    c2xSysB.items = [Item.entity 0, Item.entity 0] ∧
    c2xSysB.history.length = 2 ∧
    (step c2xSysB 3 (Op.setF 0 "foo" (Val.vstr "y"))).1.history.length = 4 ∧
    ¬ (step c2xSysB 3 (Op.setF 0 "foo" (Val.vstr "y"))).1.history.length
        = c2xSysB.history.length + 1 := by
  decide

/-- C2 (amended): with snapshots enabled and no active transaction, a member
entity Updating lifecycle event triggers one collection snapshot per active
subscription to that entity - hence exactly one when the entity is subscribed
once, as for an entity occurring once in the collection - captured before the
field write completes, so it records the pre-write field values; Updating is
the sole implicit trigger (begin, commit and rollback of transactions, commit
and rollback never add an entry outside a transaction); and in Scenario D the
rollback leaves the entity reference unchanged with foo equal to a. -/
theorem c2_updating_snapshot (sys : Sys) (t : Nat) (id : Nat) (k : String) (v : Val)
    (htx : sys.transactionActive = false)
    (hsn : sys.enableSnapshots = true)
    (hocc : sys.subs.count id = 1)
    (hint : isInternalSnapshotKey k = false)
    (hund : isUnderscoreKey k = false)
    (hsusp : (getEnt sys.heap id).trackingSuspended = false)
    (hch : objectIs (getField (getEnt sys.heap id).fields k) v = false) :
    ((step sys t (Op.setF id k v)).1.history
        = sys.history ++ [captureCollectionSnapshot t sys]) ∧
    ((step sys t Op.beginTx).1.history = sys.history) ∧
    ((step sys t Op.commitTx).1.history = sys.history) ∧
    ((step sys t Op.rollbackTx).1.history = sys.history) ∧
    ((step sys t Op.commit).1.history = []) ∧
    ((step sys t Op.rollback).1.history = sys.history.dropLast) ∧
    (c2dRoll.items = [Item.entity 0] ∧
      getField (getEnt c2dRoll.heap 0).fields "foo" = Val.vstr "a") := by
  refine ⟨?_, beginTx_history t sys, ?_, rollbackTx_history t sys, ?_,
    rollback_history t sys, by decide⟩
  · have hstep : step sys t (Op.setF id k v) = setFieldOp t sys id k v := rfl
    rw [hstep]
    unfold setFieldOp
    simp [hint, hund, hsusp, hch, htx, hsn, hocc, snapTimes, snapshotOp]
  · have hstep : step sys t Op.commitTx = commitTransactionOp sys := rfl
    rw [hstep, commitTx_inactive sys htx]
  · have hstep : step sys t Op.commit = commitOp sys := rfl
    rw [hstep]
    unfold commitOp
    simp [htx]

theorem c2_witness :
    c2dSys0.subs.count 0 = 1 ∧
    (step c2dSys0 1 (Op.setF 0 "foo" (Val.vstr "a"))).1.history
      = c2dSys0.history ++ [captureCollectionSnapshot 1 c2dSys0] := by
  have h := c2_updating_snapshot c2dSys0 1 0 "foo" (Val.vstr "a")
    rfl rfl (by decide) (by decide) (by decide) (by decide) (by decide)
  exact ⟨by decide, h.1⟩

/-! ### Token invariant lemmas -/

theorem tokenInvOn_mono (toks : List Nat) (o : Option Nat) (a : Bool) (n m : Nat)
    (h : tokenInvOn toks o a n) (hnm : n ≤ m) : tokenInvOn toks o a m := by
  obtain ⟨h1, h2, h3⟩ := h
  refine ⟨h1, fun tok hm => (h2 tok hm).trans hnm, ?_⟩
  cases o with
  | none => trivial
  | some tk =>
      obtain ⟨ha, hb⟩ := h3
      exact ⟨ha.trans hnm, hb⟩

theorem tokenInv_mono (sys : Sys) (n m : Nat) (h : TokenInv sys n) (hnm : n ≤ m) :
    TokenInv sys m :=
  tokenInvOn_mono _ _ _ n m h hnm

theorem chain_append_le (l : List Nat) (tnew : Nat)
    (hc : List.Chain' (· ≤ ·) l) (hb : ∀ tok ∈ l, tok ≤ tnew) :
    List.Chain' (· ≤ ·) (l ++ [tnew]) := by
  refine List.Chain'.append hc (List.chain'_singleton tnew) ?_
  intro x hx y hy
  have hxl : x ∈ l := by
    obtain ⟨hne, rfl⟩ := List.mem_getLast?_eq_getLast hx
    exact List.getLast_mem hne
  have hyt : tnew = y := by simpa using hy
  subst hyt
  exact hb x hxl

theorem tokenInvOn_push (toks : List Nat) (o : Option Nat) (n t : Nat)
    (h : tokenInvOn toks o false n) (hnt : n ≤ t) :
    tokenInvOn (toks ++ [t]) o false t := by
  obtain ⟨h1, h2, h3⟩ := h
  refine ⟨chain_append_le toks t h1 (fun tok hm => (h2 tok hm).trans hnt), ?_, ?_⟩
  · intro tok hm
    rcases List.mem_append.mp hm with hl | hr
    · exact (h2 tok hl).trans hnt
    · have : tok = t := by simpa using hr
      exact this.le
  · cases o with
    | none => trivial
    | some tk =>
        obtain ⟨ha, _⟩ := h3
        exact ⟨ha.trans hnt, fun habs => (Bool.false_ne_true habs).elim⟩

theorem tokenInvOn_drop (toks : List Nat) (o : Option Nat) (a : Bool) (n : Nat)
    (h : tokenInvOn toks o a n) : tokenInvOn toks.dropLast o a n := by
  obtain ⟨h1, h2, h3⟩ := h
  have hsub : toks.dropLast ⊆ toks := (List.dropLast_sublist toks).subset
  refine ⟨h1.sublist (List.dropLast_sublist toks), fun tok hm => h2 tok (hsub hm), ?_⟩
  cases o with
  | none => trivial
  | some tk =>
      obtain ⟨ha, hb⟩ := h3
      exact ⟨ha, fun hact tok hm => hb hact tok (hsub hm)⟩

theorem tokenInvOn_begin (toks : List Nat) (o : Option Nat) (a : Bool) (n t : Nat)
    (h : tokenInvOn toks o a n) (hnt : n ≤ t) :
    tokenInvOn toks (some t) true t := by
  obtain ⟨h1, h2, _⟩ := h
  exact ⟨h1, fun tok hm => (h2 tok hm).trans hnt,
    le_refl t, fun _ tok hm => (h2 tok hm).trans hnt⟩

theorem tokenInvOn_commit (toks : List Nat) (tk : Nat) (n t : Nat)
    (h : tokenInvOn toks (some tk) true n) (hnt : n ≤ t) :
    tokenInvOn (toks ++ [tk]) none false t := by
  obtain ⟨h1, h2, h3⟩ := h
  obtain ⟨htk, hb⟩ := h3
  have hball := hb rfl
  refine ⟨chain_append_le toks tk h1 hball, ?_, trivial⟩
  intro tok hm
  rcases List.mem_append.mp hm with hl | hr
  · exact (h2 tok hl).trans hnt
  · have : tok = tk := by simpa using hr
    subst this
    exact htk.trans hnt

theorem tokenInvOn_clear (toks : List Nat) (o : Option Nat) (a : Bool) (n t : Nat)
    (h : tokenInvOn toks o a n) (hnt : n ≤ t) : tokenInvOn toks none false t := by
  obtain ⟨h1, h2, _⟩ := h
  exact ⟨h1, fun tok hm => (h2 tok hm).trans hnt, trivial⟩

theorem tokenInvOn_empty (toks : List Nat) (o : Option Nat) (a : Bool) (n t : Nat)
    (h : tokenInvOn toks o a n) (hnt : n ≤ t) : tokenInvOn [] o a t := by
  obtain ⟨_, _, h3⟩ := h
  refine ⟨List.chain'_nil, by simp, ?_⟩
  cases o with
  | none => trivial
  | some tk =>
      obtain ⟨ha, _⟩ := h3
      exact ⟨ha.trans hnt, fun _ tok hm => by simp at hm⟩

theorem tokenInv_snapshotOp (t : Nat) (sys : Sys)
    (hinv : TokenInv sys t) (hact : sys.transactionActive = false) :
    TokenInv (snapshotOp t sys) t := by
  unfold snapshotOp
  by_cases hsn : sys.enableSnapshots = true
  · rw [if_pos hsn]
    unfold TokenInv at hinv ⊢
    rw [hact] at hinv
    have htoks : tokensOfHistory
        { sys with history := sys.history ++ [captureCollectionSnapshot t sys] }
        = tokensOfHistory sys ++ [t] := by
      simp [tokensOfHistory, captureCollectionSnapshot]
    rw [htoks]
    have := tokenInvOn_push (tokensOfHistory sys) sys.transactionToken t t hinv
      (le_refl t)
    simpa [hact] using this
  · rw [if_neg hsn]
    exact hinv

theorem snapshotOp_transactionActive (t : Nat) (sys : Sys) :
    (snapshotOp t sys).transactionActive = sys.transactionActive := by
  unfold snapshotOp
  by_cases hsn : sys.enableSnapshots = true <;> simp [hsn]

theorem tokenInv_snapTimes (t : Nat) :
    ∀ (n : Nat) (sys : Sys), TokenInv sys t → sys.transactionActive = false →
      TokenInv (snapTimes t n sys) t := by
  intro n
  induction n with
  | zero => intro sys h _; exact h
  | succ m ih =>
      intro sys h hact
      have hstep := tokenInv_snapshotOp t sys h hact
      have hact2 : (snapshotOp t sys).transactionActive = false :=
        (snapshotOp_transactionActive t sys).trans hact
      exact ih (snapshotOp t sys) hstep hact2

theorem tokenInv_commitTxOp (sys : Sys) (now t : Nat)
    (hinv : TokenInv sys now) (hle : now ≤ t) :
    TokenInv (commitTransactionOp sys).1 t := by
  have hinvt := tokenInv_mono sys now t hinv hle
  unfold commitTransactionOp
  cases hte : sys.enableTransactions with
  | false => exact hinvt
  | true =>
      cases htok : sys.transactionToken with
      | none => exact hinvt
      | some tk =>
          cases hact : sys.transactionActive with
          | false => exact hinvt
          | true =>
              have hinv2 : tokenInvOn (tokensOfHistory sys) (some tk) true now := by
                unfold TokenInv at hinv
                rwa [htok, hact] at hinv
              cases hsn : sys.enableSnapshots with
              | false =>
                  show tokenInvOn (tokensOfHistory sys) none false t
                  exact tokenInvOn_clear (tokensOfHistory sys) (some tk) true now t
                    hinv2 hle
              | true =>
                  have hmap : (sys.history
                        ++ [captureCollectionSnapshot tk sys]).map CollSnap.token
                      = tokensOfHistory sys ++ [tk] := by
                    simp [tokensOfHistory, captureCollectionSnapshot]
                  show tokenInvOn ((sys.history
                      ++ [captureCollectionSnapshot tk sys]).map CollSnap.token)
                    none false t
                  rw [hmap]
                  exact tokenInvOn_commit (tokensOfHistory sys) tk now t hinv2 hle

/-- C9 counterexample: with a strictly increasing clock (Date.now 10, 15, 20),
beginTransaction captures the anchor snapshot with token 10 and
commitTransaction pushes the boundary history entry with that same token 10 -
two distinct snapshots (the collection changed inside the transaction) carry
the same token, so tokens are not unique. -/
theorem c9_counterexample :
    c9Sys1.transactionInitialState
      = some ⟨10, [Item.plain (Val.vint 1)], []⟩ ∧
    c9Sys3.history
      = [⟨10, [Item.plain (Val.vint 1), Item.plain (Val.vint 2)], []⟩] ∧
    ((⟨10, [Item.plain (Val.vint 1)], []⟩ : CollSnap)
        ≠ ⟨10, [Item.plain (Val.vint 1), Item.plain (Val.vint 2)], []⟩) ∧
    (⟨10, [Item.plain (Val.vint 1)], []⟩ : CollSnap).token
      = (⟨10, [Item.plain (Val.vint 1), Item.plain (Val.vint 2)], []⟩ : CollSnap).token := by
  decide

/-- C9 (amended): snapshot tokens are time-derived and monotonically
non-decreasing - every operation, run at a Date.now value t no earlier than
the last observed one, preserves the invariant that the history token list is
a non-decreasing chain bounded by the clock and that an active transaction
anchor token bounds every history token - but tokens are not unique: the
commit boundary entry reuses the anchor token (see the counterexample). -/
theorem c9_token_monotone (sys : Sys) (now t : Nat) (op : Op)
    (hinv : TokenInv sys now) (hle : now ≤ t) :
    TokenInv (step sys t op).1 t := by
  have hinvt : TokenInv sys t := tokenInv_mono sys now t hinv hle
  cases op with
  | add it =>
      have hstep : step sys t (Op.add it) = addOp t sys it := rfl
      rw [hstep, addOp_eq]
      by_cases hc : (!sys.transactionActive && sys.enableSnapshots) = true
      · have hna : sys.transactionActive = false := by
          simpa using (Bool.and_eq_true _ _ |>.mp hc).1
        rw [if_pos hc]
        unfold TokenInv at hinvt ⊢
        have htoks : tokensOfHistory
            { sys with
                items := sys.items ++ [it],
                subs := subscribeToItem sys.subs it,
                history := sys.history ++ [captureCollectionSnapshot t sys] }
            = tokensOfHistory sys ++ [t] := by
          simp [tokensOfHistory, captureCollectionSnapshot]
        rw [htoks]
        rw [hna] at hinvt
        have := tokenInvOn_push (tokensOfHistory sys) sys.transactionToken t t hinvt
          (le_refl t)
        simpa [hna] using this
      · rw [if_neg hc]
        exact hinvt
  | remove it =>
      have hstep : step sys t (Op.remove it) = removeOp t sys it := rfl
      rw [hstep, removeOp_eq]
      by_cases hc : (!sys.transactionActive && sys.enableSnapshots) = true
      · have hna : sys.transactionActive = false := by
          simpa using (Bool.and_eq_true _ _ |>.mp hc).1
        rw [if_pos hc]
        unfold TokenInv at hinvt ⊢
        have htoks : tokensOfHistory
            { sys with
                items := sys.items.filter (fun ci => ci != it),
                subs := resubscribeAll (sys.items.filter (fun ci => ci != it)),
                history := sys.history ++ [captureCollectionSnapshot t sys] }
            = tokensOfHistory sys ++ [t] := by
          simp [tokensOfHistory, captureCollectionSnapshot]
        rw [htoks]
        rw [hna] at hinvt
        have := tokenInvOn_push (tokensOfHistory sys) sys.transactionToken t t hinvt
          (le_refl t)
        simpa [hna] using this
      · rw [if_neg hc]
        exact hinvt
  | setF id k v =>
      show TokenInv (setFieldOp t sys id k v).1 t
      unfold setFieldOp
      dsimp only
      split_ifs with h1 h2 h3 h4 h5
      · exact hinvt
      · exact hinvt
      · have hna : sys.transactionActive = false := by
          simpa using (Bool.and_eq_true _ _ |>.mp h5).1
        exact tokenInv_snapTimes t (sys.subs.count id) sys hinvt hna
      · exact hinvt
      · exact hinvt
      · exact hinvt
  | beginTx =>
      show TokenInv (beginTransactionOp t sys) t
      unfold beginTransactionOp
      split_ifs with hte hta
      · exact hinvt
      · exact hinvt
      · exact tokenInvOn_begin (tokensOfHistory sys) sys.transactionToken
          sys.transactionActive t t hinvt (le_refl t)
  | commitTx =>
      exact tokenInv_commitTxOp sys now t hinv hle
  | rollbackTx =>
      show TokenInv (rollbackTransactionOp t sys).1 t
      unfold rollbackTransactionOp
      split_ifs with h1 h2
      · exact hinvt
      · exact hinvt
      · cases hin : sys.transactionInitialState with
        | none =>
            exact tokenInvOn_clear (tokensOfHistory sys) sys.transactionToken
              sys.transactionActive t t hinvt (le_refl t)
        | some anchor =>
            simp only [restoreAll_def_eq]
            exact tokenInvOn_clear (tokensOfHistory sys) sys.transactionToken
              sys.transactionActive t t hinvt (le_refl t)
  | commit =>
      show TokenInv (commitOp sys).1 t
      unfold commitOp
      split_ifs with hta
      · exact tokenInv_commitTxOp sys now t hinv hle
      · exact tokenInvOn_empty (tokensOfHistory sys) sys.transactionToken
          sys.transactionActive t t hinvt (le_refl t)
  | rollback =>
      show TokenInv (rollbackOp t sys).1 t
      unfold rollbackOp
      cases hl : sys.history.getLast? with
      | none => exact hinvt
      | some s =>
          simp only [restoreAll_def_eq]
          have htoks : tokensOfHistory
              { sys with history := sys.history.dropLast }
              = (tokensOfHistory sys).dropLast := by
            simp [tokensOfHistory, List.map_dropLast]
          show tokenInvOn (tokensOfHistory { sys with history := sys.history.dropLast })
            sys.transactionToken sys.transactionActive t
          rw [htoks]
          exact tokenInvOn_drop _ _ _ t hinvt

theorem c9_witness :
    TokenInv c9Sys0 5 ∧ 5 ≤ 10 ∧ TokenInv (step c9Sys0 10 Op.beginTx).1 10 := by
  have h := c9_token_monotone c9Sys0 5 10 Op.beginTx (by decide) (by decide)
  exact ⟨by decide, by decide, h⟩

end TsKit
